import Mathlib

/-!
Verification of the virtual-time scheduling core of the ruscello library.

The definitions below are a shallow embedding of the `TestSchedule`,
`TestSource`, `SharedTestSource` and `watchSourceEvents` functions of the
repository (file `testSchedule.ts` style source).  Machine numbers
(`delayFrames`, `executionFrame`, `currentFrame`) are embedded as `Int`;
array indices as `Nat`.  Two levels of modelling are used:

* a schedule-only model (`ScheduleState`) in which a scheduled callback is
  identified by a `Nat` label and invoking it is recorded in a log — used for
  the claims that quantify over arbitrary scheduling sequences; and
* a world model (`World`) that additionally embeds the `Disposable`, `Sink`,
  `Subject`, `TestSource`, `SharedTestSource` and `watchSourceEvents`
  machinery as explicit stores, with the finitely many callback closures of
  the source deep-embedded as the `SchedCb`, `Teardown` and `SinkKind`
  inductives.

The `Disposable`, `Sink` and `Subject` implementations are not part of the
provided sources (only their import sites are); the corresponding operations
(`dispAdd`, `dispDispose`, `sinkInvoke`, `subjectPush`, `subjectSubscribe`)
are modelled from the spec, as their doc comments state.
-/

namespace Ruscello

/-! ## getActionInsertIndex

Faithful translation of the binary search of `getActionInsertIndex`
(source lines 103–134).  The JS `while` loops are embedded with an explicit
fuel argument so that every definition computes by kernel reduction; the
wrappers supply fuel that is provably larger than the number of iterations
the loop can perform, so the fuel-exhaustion branch is never reached. -/

/-- The inner `while (mid + 1 < len && actions[mid + 1].executionFrame === frame) mid++`
walk (source lines 120–122): advance `mid` to the end of the run of actions
sharing `frame`. -/
def walkEnd (frames : List Int) (frame : Int) : Nat → Nat → Nat
  | 0, mid => mid
  | fuel + 1, mid =>
      if mid + 1 < frames.length ∧ frames.getD (mid + 1) 0 = frame then
        walkEnd frames frame fuel (mid + 1)
      else mid

/-- The code after the `while` loop of `getActionInsertIndex`
(source lines 127–133). -/
def gaiiPost (frames : List Int) (low : Nat) (high : Int) : Int :=
  if high < 0 then 0
  else if (frames.length : Int) - 1 < (low : Int) then (frames.length : Int)
  else if (low : Int) < high then (low : Int) + 1 else high + 1

/-- The JS `let mid = ((low + high) / 2) | 0` (source line 112).  `Nat`
division agrees with the JS truncating division since under the loop guard
both bounds are nonnegative. -/
def gaiiMid (low : Nat) (high : Int) : Nat := (low + high.toNat) / 2

/-- The main `while (low <= high)` binary-search loop of
`getActionInsertIndex` (source lines 111–125).  On an exact frame match the
walk of `walkEnd` runs and `mid + 1` is returned. -/
def gaiiLoop (frames : List Int) (frame : Int) : Nat → Nat → Int → Int
  | 0, low, high => gaiiPost frames low high
  | fuel + 1, low, high =>
      if (low : Int) ≤ high then
        if frames.getD (gaiiMid low high) 0 < frame then
          gaiiLoop frames frame fuel (gaiiMid low high + 1) high
        else if frame < frames.getD (gaiiMid low high) 0 then
          gaiiLoop frames frame fuel low ((gaiiMid low high : Int) - 1)
        else ((walkEnd frames frame frames.length (gaiiMid low high) : Nat) : Int) + 1
      else gaiiPost frames low high

/-- `getActionInsertIndex(actions, frame)` (source lines 103–134), acting on
the list of `executionFrame` values of the queued actions. -/
def getActionInsertIndex (frames : List Int) (frame : Int) : Int :=
  gaiiLoop frames frame (frames.length + 1) 0 ((frames.length : Int) - 1)

/-! ## Schedule-only model

A scheduled action is identified by a `Nat` label (`aid`); running a
callback appends its label to a log.  This mirrors `TestScheduleAction`
(source lines 19–23) with the callback closure abstracted to its identity. -/

/-- `TestScheduleAction` (source lines 19–23): callback identity,
execution frame and the `shouldCall` cancellation flag. -/
structure SAction where
  aid : Nat
  executionFrame : Int
  shouldCall : Bool
deriving DecidableEq

/-- The mutable state captured by the `TestSchedule()` closure
(source lines 26–28): the sorted action queue, `currentFrame` and the
re-entrancy guard `isFlushing`. -/
structure ScheduleState where
  actions : List SAction
  currentFrame : Int
  isFlushing : Bool
deriving DecidableEq

/-- What a scheduled callback does when invoked: return normally, throw, or
call `flush()` re-entrantly.  (A re-entrant `flush` hits the `isFlushing`
guard — the guard flag is set for the whole duration of the flush loop — and
returns immediately, so in the interpreter below it behaves like a normal
return.) -/
inductive Behavior
  | ret
  | throwErr
  | callFlush
deriving DecidableEq

/-- The environment in which every callback just returns. -/
def envRet : Nat → Behavior := fun _ => Behavior.ret

/-- The `testSchedule` invocation itself (source lines 30–53).
`subActive` is `none` when no `subscription` argument is passed and
`some b` when a subscription with `active = b` is passed; the code returns
without scheduling exactly when `subscription?.active === false`.  The
teardown that the code registers on the subscription (source lines 48–52)
only flips the new action's `shouldCall` flag when the subscription is later
disposed; that later effect is modelled by `cancel` below. -/
def testSchedule (s : ScheduleState) (subActive : Option Bool) (aid : Nat)
    (delayFrames : Int) : ScheduleState :=
  if subActive = some false then s
  else
    let executionFrame := s.currentFrame + delayFrames
    let index := getActionInsertIndex (s.actions.map (·.executionFrame)) executionFrame
    { s with actions := s.actions.insertIdx index.toNat ⟨aid, executionFrame, true⟩ }

/-- The effect of disposing the subscription passed for action `aid`: the
registered teardown (source lines 48–52) sets that action's `shouldCall` to
`false` in place, without removing it from the queue. -/
def cancel (s : ScheduleState) (aid : Nat) : ScheduleState :=
  { s with actions := s.actions.map fun a =>
      if a.aid = aid then { a with shouldCall := false } else a }

/-- Issue a sequence of scheduling calls (each without a subscription), in
order. -/
def scheduleAll (s : ScheduleState) (calls : List (Nat × Int)) : ScheduleState :=
  calls.foldl (fun s c => testSchedule s none c.1 c.2) s

/-- The `while (action)` loop of `flush` (source lines 66–81) under a
behavior environment `env`.  Each iteration shifts the first action, sets
`currentFrame` to its `executionFrame`, and — if `shouldCall` — invokes the
callback (recording its label in the log).  A throwing callback triggers
`reset()` (queue cleared, frame zeroed, guard cleared, source lines 89–94)
and the error propagates (`Option Nat` holds the thrower's label).  A
callback that itself calls `flush()` finds `isFlushing` still set and the
nested call returns immediately, so the loop just continues.  On normal
termination `isFlushing` is cleared (source line 82). -/
def flushLoop (env : Nat → Behavior) :
    List SAction → Int → List Nat → ScheduleState × List Nat × Option Nat
  | [], cf, log => (⟨[], cf, false⟩, log, none)
  | a :: rest, _, log =>
      let cf := a.executionFrame
      if a.shouldCall then
        match env a.aid with
        | Behavior.ret => flushLoop env rest cf (log ++ [a.aid])
        | Behavior.throwErr => (⟨[], 0, false⟩, log ++ [a.aid], some a.aid)
        | Behavior.callFlush => flushLoop env rest cf (log ++ [a.aid])
      else flushLoop env rest cf log

/-- `flush()` (source lines 60–83): a no-op when `isFlushing` is already
set; otherwise drains the queue via `flushLoop`.  Returns the final state,
the log of invoked callbacks, and the propagated error (if any). -/
def flush (env : Nat → Behavior) (s : ScheduleState) :
    ScheduleState × List Nat × Option Nat :=
  if s.isFlushing then (s, [], none)
  else flushLoop env s.actions s.currentFrame []

/-- The sequence of callback labels a full drain of the queue invokes:
the labels of the still-callable actions, in queue order. -/
def pureLog (l : List SAction) : List Nat :=
  (l.filter fun a => a.shouldCall).map (fun a => a.aid)

def finalFrame (cf : Int) : List SAction → Int
  | [] => cf
  | a :: rest => finalFrame a.executionFrame rest

/-! ## World model

The stores below embed the heap objects the test-source machinery allocates:
disposables, sinks, sources (with their accumulating `subscriptions` lists),
subjects and the record lists of `watchSourceEvents` watchers.  Objects are
addressed by their index in the relevant store.  The finitely many callback
closures appearing in the source become the constructors of `Teardown`,
`SinkKind` and `SchedCb`. -/

/-- `Event<T>` at element type `Int`: the `Push`/`Throw`/`End` variants. -/
inductive Ev
  | push (v : Int)
  | throwE (e : Int)
  | endE
deriving DecidableEq

/-- What a `Sink`'s callback does when the sink receives an event.  The only
sink callback needed by the claims is the recorder of `watchSourceEvents`
(source lines 258–260), which appends the event tagged with the schedule's
`currentFrame` to record list `recId`. -/
inductive SinkKind
  | record (recId : Nat)
deriving DecidableEq

/-- Modelled from the spec: a `Sink` is an event consumer intrinsically
associated with exactly one `Disposable` (here by store index `dispId`). -/
structure SinkObj where
  dispId : Nat
  kind : SinkKind
deriving DecidableEq

/-- The teardown closures the source registers on disposables:
`() => { action.shouldCall = false }` (source lines 49–51),
`() => { info.subscriptionEndFrame = testSchedule.currentFrame }`
(source lines 158–160), and — modelled from the spec (§4.3) — the removal of
a sink from a subject's registry when the sink's disposable is disposed. -/
inductive Teardown
  | setShouldCall (aid : Nat)
  | setEndFrame (infoId : Nat)
  | removeSink (subjectId : Nat) (sinkId : Nat)
deriving DecidableEq

/-- Modelled from the spec (§3, §4.1): a `Disposable` with its `active` flag
and its ordered list of registered teardowns. -/
structure DispObj where
  active : Bool
  teardowns : List Teardown
deriving DecidableEq

/-- The scheduled callback closures of the source:
`() => sink(event)` (line 201), `() => subject(event)` (line 238),
the subscription starter of `watchSourceEvents` (lines 256–262, which
creates the recording `Sink` and invokes the source with it), and
`() => subscription.dispose()` (lines 264–266). -/
inductive SchedCb
  | sinkEvent (sinkId : Nat) (ev : Ev)
  | pushSubject (subjectId : Nat) (ev : Ev)
  | subscribeWatch (srcId : Nat) (recId : Nat) (dispId : Nat)
  | disposeDisp (dispId : Nat)
deriving DecidableEq

/-- A queued `TestScheduleAction` of the world model: the action identity
`aid` (used by the `setShouldCall` teardown), its callback closure, its
execution frame and the `shouldCall` flag. -/
structure WAction where
  aid : Nat
  cb : SchedCb
  executionFrame : Int
  shouldCall : Bool
deriving DecidableEq

/-- `TestSubscriptionInfo` (source lines 136–139); `subscriptionEndFrame`
is `none` while still `Infinity` (source line 154). -/
structure SubInfo where
  subscriptionStartFrame : Int
  subscriptionEndFrame : Option Int
deriving DecidableEq

/-- A source value: either `TestSource(events, schedule)` (source lines
192–211) or `SharedTestSource(events, schedule)` (source lines 217–244,
holding its subject's store index). -/
inductive SourceObj
  | test (events : List (Ev × Int))
  | shared (events : List (Ev × Int)) (subjectId : Nat)
deriving DecidableEq

/-- Default values used with `List.getD` store lookups. -/
def dfltDisp : DispObj := ⟨false, []⟩

def dfltSink : SinkObj := ⟨0, SinkKind.record 0⟩

def dfltSource : SourceObj × List Nat := (SourceObj.test [], [])

def dfltInfo : SubInfo := ⟨0, none⟩

/-- The whole mutable state: the schedule (queue, `currentFrame`,
`isFlushing`, a counter allocating action identities) together with the
stores of heap objects. -/
structure World where
  actions : List WAction
  currentFrame : Int
  isFlushing : Bool
  nextAid : Nat
  disps : List DispObj
  sinks : List SinkObj
  sources : List (SourceObj × List Nat)
  subjects : List (List Nat)
  infos : List SubInfo
  records : List (List (Ev × Int))
deriving DecidableEq

/-- The world with a fresh `TestSchedule()` and no heap objects. -/
def freshWorld : World := ⟨[], 0, false, 0, [], [], [], [], [], []⟩

/-- Run one teardown closure.  `setShouldCall` flips the `shouldCall` flag
of the queued action with identity `aid` in place (a no-op if the action has
already been dequeued, matching the JS closure mutating an object no longer
referenced by the queue); `setEndFrame` fixes `subscriptionEndFrame` to the
current frame; `removeSink` (modelled from the spec §4.3) unregisters a sink
from a subject. -/
def runTeardown (w : World) : Teardown → World
  | Teardown.setShouldCall aid =>
      { w with actions := w.actions.map fun a =>
          if a.aid = aid then { a with shouldCall := false } else a }
  | Teardown.setEndFrame infoId =>
      let info := w.infos.getD infoId dfltInfo
      { w with infos := w.infos.set infoId ({ info with subscriptionEndFrame := some w.currentFrame }) }
  | Teardown.removeSink subjectId sinkId =>
      let reg := (w.subjects.getD subjectId []).filter fun s => s ≠ sinkId
      { w with subjects := w.subjects.set subjectId reg }

/-- Modelled from the spec (§4.1): `Disposable.add` registers a teardown if
the disposable is still active, and otherwise runs it immediately. -/
def dispAdd (w : World) (d : Nat) (t : Teardown) : World :=
  if (w.disps.getD d dfltDisp).active then
    { w with disps := w.disps.set d (DispObj.mk true ((w.disps.getD d dfltDisp).teardowns ++ [t])) }
  else runTeardown w t

/-- Modelled from the spec (§4.1): `dispose()` is a no-op when already
inactive; otherwise it runs every registered teardown in insertion order and
then clears the `active` flag. -/
def dispDispose (w : World) (d : Nat) : World :=
  if (w.disps.getD d dfltDisp).active then
    let w2 := (w.disps.getD d dfltDisp).teardowns.foldl runTeardown w
    { w2 with disps := w2.disps.set d ⟨false, (w2.disps.getD d dfltDisp).teardowns⟩ }
  else w

/-- The sink callback's own effect on delivery: the recorder callback
appends the event tagged with the schedule's `currentFrame` at delivery
time (source line 259). -/
def sinkConsume (w : World) (k : SinkKind) (ev : Ev) : World :=
  match k with
  | SinkKind.record recId =>
      let rec2 := (w.records.getD recId []) ++ [(ev, w.currentFrame)]
      { w with records := w.records.set recId rec2 }

/-- Modelled from the spec (§3): invoking a `Sink` first checks that its
bound disposable is still active, and only then forwards the event to the
sink's callback. -/
def sinkInvoke (w : World) (sinkId : Nat) (ev : Ev) : World :=
  if (w.disps.getD (w.sinks.getD sinkId dfltSink).dispId dfltDisp).active then
    sinkConsume w (w.sinks.getD sinkId dfltSink).kind ev
  else w

/-- Modelled from the spec (§4.3): pushing an event into a subject forwards
it to a frozen snapshot of the currently registered sinks, in subscription
order. -/
def subjectPush (w : World) (subjectId : Nat) (ev : Ev) : World :=
  (w.subjects.getD subjectId []).foldl (fun w2 sid => sinkInvoke w2 sid ev) w

/-- Modelled from the spec (§4.3): subscribing a sink to a subject appends
it to the registry and registers the automatic removal teardown on the
sink's disposable. -/
def subjectSubscribe (w : World) (subjectId : Nat) (sinkId : Nat) : World :=
  let reg := (w.subjects.getD subjectId []) ++ [sinkId]
  let w2 := { w with subjects := w.subjects.set subjectId reg }
  dispAdd w2 (w2.sinks.getD sinkId dfltSink).dispId (Teardown.removeSink subjectId sinkId)

/-- The unconditional part of the `testSchedule` invocation: compute the
execution frame, find the binary-search position and insert the new action
(source lines 39–47), allocating the next action identity. -/
def wEnqueue (w : World) (cb : SchedCb) (delayFrames : Int) : World :=
  { w with
      actions := w.actions.insertIdx
        (getActionInsertIndex (w.actions.map (·.executionFrame))
          (w.currentFrame + delayFrames)).toNat
        ⟨w.nextAid, cb, w.currentFrame + delayFrames, true⟩,
      nextAid := w.nextAid + 1 }

/-- The `testSchedule` invocation (source lines 30–53) at world level:
check the subscription's `active` flag, insert the new action at the
binary-search position, and register the `setShouldCall` teardown on the
subscription. -/
def wTestSchedule (w : World) (cb : SchedCb) (delayFrames : Int)
    (subscription : Option Nat) : World :=
  match subscription with
  | some d =>
      if (w.disps.getD d dfltDisp).active = false then w
      else dispAdd (wEnqueue w cb delayFrames) d (Teardown.setShouldCall w.nextAid)
  | none => wEnqueue w cb delayFrames

/-- `watchSubscriptionInfo` (source lines 148–164): allocate a new
`TestSubscriptionInfo` starting at the current frame with end `Infinity`,
and register the teardown fixing the end frame on the given subscription.
Returns the new info's store index. -/
def watchSubscriptionInfo (w : World) (subscription : Option Nat) : World × Nat :=
  let infoId := w.infos.length
  let w2 := { w with infos := w.infos ++ [⟨w.currentFrame, none⟩] }
  match subscription with
  | some d => (dispAdd w2 d (Teardown.setEndFrame infoId), infoId)
  | none => (w2, infoId)

/-- Subscribing a sink to a source.  For a `TestSource` (source lines
198–203): record a new subscription info (the sink is the subscription),
then schedule the delivery of each declared event at its frame delay with
the sink as the subscription.  For a `SharedTestSource` (source lines
225–228): record the info and register the sink with the subject — nothing
is scheduled. -/
def sourceSubscribe (w : World) (srcId : Nat) (sinkId : Nat) : World :=
  let src := w.sources.getD srcId dfltSource
  let sinkDisp := (w.sinks.getD sinkId dfltSink).dispId
  let wi := watchSubscriptionInfo w (some sinkDisp)
  let w2 := { wi.1 with sources := wi.1.sources.set srcId (src.1, src.2 ++ [wi.2]) }
  match src.1 with
  | SourceObj.test events =>
      events.foldl
        (fun w3 e => wTestSchedule w3 (SchedCb.sinkEvent sinkId e.1) e.2 (some sinkDisp)) w2
  | SourceObj.shared _ subjectId => subjectSubscribe w2 subjectId sinkId

/-- The `schedule(subscription?)` method of `SharedTestSource` (source
lines 235–241): schedule one push of each declared event into the subject,
at the event's frame delay, under the given subscription.  A no-op on a
plain `TestSource` (which has no such method). -/
def sharedSchedule (w : World) (srcId : Nat) (subscription : Option Nat) : World :=
  match (w.sources.getD srcId dfltSource).1 with
  | SourceObj.test _ => w
  | SourceObj.shared events subjectId =>
      events.foldl
        (fun w2 e => wTestSchedule w2 (SchedCb.pushSubject subjectId e.1) e.2 subscription) w

/-- Allocate a `TestSource(events, testSchedule)` value (source lines
192–211); returns its store index. -/
def mkTestSource (w : World) (events : List (Ev × Int)) : World × Nat :=
  ({ w with sources := w.sources ++ [(SourceObj.test events, [])] }, w.sources.length)

/-- Allocate a `SharedTestSource(events, testSchedule)` value together with
its internal subject (source lines 217–244); returns the source's and the
subject's store indices. -/
def mkSharedTestSource (w : World) (events : List (Ev × Int)) : World × Nat × Nat :=
  ({ w with subjects := w.subjects ++ [[]],
            sources := w.sources ++ [(SourceObj.shared events w.subjects.length, [])] },
   w.sources.length, w.subjects.length)

/-- Run one scheduled callback closure.  `subscribeWatch` is the starter of
`watchSourceEvents` (source lines 256–262): it creates the recording sink
bound to the watcher's disposable and subscribes it to the source. -/
def runSchedCb (w : World) : SchedCb → World
  | SchedCb.sinkEvent sinkId ev => sinkInvoke w sinkId ev
  | SchedCb.pushSubject subjectId ev => subjectPush w subjectId ev
  | SchedCb.subscribeWatch srcId recId dispId =>
      let sinkId := w.sinks.length
      let w2 := { w with sinks := w.sinks ++ [⟨dispId, SinkKind.record recId⟩] }
      sourceSubscribe w2 srcId sinkId
  | SchedCb.disposeDisp dispId => dispDispose w dispId

/-- The `while (action)` loop of `flush` (source lines 66–81) at world
level, with fuel (scheduled callbacks may schedule further actions).  None
of the world-level callbacks throws, so the `try`/`catch` of the source is
never triggered here. -/
def wFlushLoop : Nat → World → World
  | 0, w => w
  | fuel + 1, w =>
      match w.actions with
      | [] => { w with isFlushing := false }
      | a :: rest =>
          let w2 := { w with actions := rest, currentFrame := a.executionFrame }
          wFlushLoop fuel (if a.shouldCall then runSchedCb w2 a.cb else w2)

/-- `flush()` (source lines 60–83) at world level. -/
def wFlush (fuel : Nat) (w : World) : World :=
  if w.isFlushing then w else wFlushLoop fuel { w with isFlushing := true }

/-- `watchSourceEvents(source, testSchedule, subscriptionInfo)` with an
explicitly supplied subscription window (source lines 246–269): create the
watcher's disposable and its (initially empty) record list, schedule the
subscription start at delay `subscriptionStartFrame` and the disposal at
delay `subscriptionEndFrame` (both without a subscription argument), and
return the record list's store index. -/
def watchSourceEvents (w : World) (srcId : Nat) (startFrame endFrame : Int) :
    World × Nat :=
  let dispId := w.disps.length
  let recId := w.records.length
  let w2 := { w with disps := w.disps ++ [⟨true, []⟩], records := w.records ++ [[]] }
  let w3 := wTestSchedule w2 (SchedCb.subscribeWatch srcId recId dispId) startFrame none
  let w4 := wTestSchedule w3 (SchedCb.disposeDisp dispId) endFrame none
  (w4, recId)

/-! ## Concrete scenario worlds

`c7World` is scenario B of the spec: a fresh schedule, a `TestSource` with
events `[P(1,0), P(2,10), E(20)]`, watched over the window `[0, 25]`, then
flushed.  The `c8` worlds first advance `currentFrame` to `5` (by flushing a
watch of an empty source over the window `[5, 5]`) and then watch a source
declaring `P(1)` at frame `0` over the supplied window `[0, 25]` — exposing
that the window frames are treated as delays from `currentFrame`.
`c9WitWorld` and `tagWitWorld` are small hand-built worlds used as witness
inputs. -/

def c7Src : World × Nat :=
  mkTestSource freshWorld [(Ev.push 1, 0), (Ev.push 2, 10), (Ev.endE, 20)]

def c7Watch : World × Nat := watchSourceEvents c7Src.1 c7Src.2 0 25

def c7World : World := wFlush 64 c7Watch.1

def c8Pre : World × Nat := mkTestSource freshWorld []

def c8Mid : World := wFlush 64 (watchSourceEvents c8Pre.1 c8Pre.2 5 5).1

def c8Src : World × Nat := mkTestSource c8Mid [(Ev.push 1, 0)]

def c8Watch : World × Nat := watchSourceEvents c8Src.1 c8Src.2 0 25

def c8World : World := wFlush 64 c8Watch.1

def c9WitWorld : World :=
  ⟨[], 0, false, 0, [⟨true, []⟩], [⟨0, SinkKind.record 0⟩],
    [(SourceObj.shared [(Ev.push 1, 2), (Ev.endE, 4)] 0, [])], [[]], [], [[]]⟩

def tagWitWorld : World :=
  ⟨[], 4, false, 0, [⟨true, []⟩], [⟨0, SinkKind.record 0⟩], [], [], [], [[]]⟩

/-! ## Correctness of the binary-search insertion index -/

theorem countP_eq_of_split (l : List Int) (f : Int) (k : Nat) (hk : k ≤ l.length)
    (h1 : ∀ i, (hi : i < l.length) → i < k → l[i] ≤ f)
    (h2 : ∀ i, (hi : i < l.length) → k ≤ i → f < l[i]) :
    l.countP (fun q => decide (q ≤ f)) = k := by
  induction l generalizing k with
  | nil =>
      simp only [List.length_nil, Nat.le_zero] at hk
      simp [hk]
  | cons x xs ih =>
      cases k with
      | zero =>
          have hx : f < x := by
            have := h2 0 (by simp) (by omega)
            simpa using this
          have hnx : (decide (x ≤ f)) = false := by
            simp only [decide_eq_false_iff_not]
            omega
          rw [List.countP_cons, hnx]
          simp only [Bool.false_eq_true, if_false, Nat.add_zero]
          apply ih 0 (by omega)
          · intro i hi hik; omega
          · intro i hi _
            have := h2 (i + 1) (by simpa using Nat.succ_lt_succ hi) (by omega)
            simpa using this
      | succ k =>
          have hx : x ≤ f := by
            have := h1 0 (by simp) (by omega)
            simpa using this
          have hpx : (decide (x ≤ f)) = true := by
            simpa using hx
          rw [List.countP_cons, hpx]
          simp only [if_true]
          have : xs.countP (fun q => decide (q ≤ f)) = k := by
            apply ih k (by simpa using hk)
            · intro i hi hik
              have := h1 (i + 1) (by simpa using Nat.succ_lt_succ hi) (by omega)
              simpa using this
            · intro i hi hik
              have := h2 (i + 1) (by simpa using Nat.succ_lt_succ hi) (by omega)
              simpa using this
          omega

theorem sorted_getElem_le {l : List Int} (h : l.Pairwise (· ≤ ·)) (i j : Nat)
    (hi : i < l.length) (hj : j < l.length) (hij : i ≤ j) : l[i] ≤ l[j] := by
  rcases Nat.eq_or_lt_of_le hij with rfl | hlt
  · exact le_refl _
  · exact List.pairwise_iff_getElem.mp h i j hi hj hlt

theorem walkEnd_lt_length (frames : List Int) (f : Int) :
    ∀ fuel mid, mid < frames.length → walkEnd frames f fuel mid < frames.length := by
  intro fuel
  induction fuel with
  | zero => intro mid h; simpa [walkEnd] using h
  | succ fuel ih =>
      intro mid h
      rw [walkEnd]
      split
      · exact ih (mid + 1) (by omega)
      · exact h

theorem walkEnd_ge (frames : List Int) (f : Int) :
    ∀ fuel mid, mid ≤ walkEnd frames f fuel mid := by
  intro fuel
  induction fuel with
  | zero => intro mid; simp [walkEnd]
  | succ fuel ih =>
      intro mid
      rw [walkEnd]
      split
      · exact le_trans (by omega) (ih (mid + 1))
      · exact le_refl _

theorem walkEnd_spec (frames : List Int) (f : Int) (hpw : frames.Pairwise (· ≤ ·)) :
    ∀ fuel mid, (hmid : mid < frames.length) → frames[mid] = f →
    frames.length ≤ fuel + mid + 1 →
    frames.countP (fun q => decide (q ≤ f)) = walkEnd frames f fuel mid + 1 := by
  intro fuel
  induction fuel with
  | zero =>
      intro mid hmid heq hlen
      have hml : frames.length = mid + 1 := by omega
      rw [walkEnd]
      apply countP_eq_of_split frames f (mid + 1) (by omega)
      · intro i hi hik
        calc frames[i] ≤ frames[mid] := sorted_getElem_le hpw i mid (by omega) hmid (by omega)
        _ = f := heq
      · intro i hi hik; omega
  | succ fuel ih =>
      intro mid hmid heq hlen
      rw [walkEnd]
      split
      · next hc =>
          obtain ⟨hlt, hval⟩ := hc
          have hval' : frames[mid + 1] = f := by
            rw [List.getD_eq_getElem frames 0 hlt] at hval
            exact hval
          exact ih (mid + 1) hlt hval' (by omega)
      · next hc =>
          apply countP_eq_of_split frames f (mid + 1) (by omega)
          · intro i hi hik
            calc frames[i] ≤ frames[mid] := sorted_getElem_le hpw i mid (by omega) hmid (by omega)
            _ = f := heq
          · intro i hi hik
            have hsl : mid + 1 < frames.length := by omega
            have hne : frames[mid + 1] ≠ f := by
              intro hcontra
              apply hc
              exact ⟨hsl, by rw [List.getD_eq_getElem frames 0 hsl]; exact hcontra⟩
            have hge : f ≤ frames[mid + 1] := by
              rw [← heq]
              exact sorted_getElem_le hpw mid (mid + 1) hmid hsl (by omega)
            have hgt : f < frames[mid + 1] := lt_of_le_of_ne hge (Ne.symm hne)
            calc f < frames[mid + 1] := hgt
            _ ≤ frames[i] := sorted_getElem_le hpw (mid + 1) i hsl hi (by omega)


theorem gaiiPost_spec (frames : List Int) (f : Int) (low : Nat) (high : Int)
    (hl : (low : Int) = high + 1)
    (hh : high ≤ (frames.length : Int) - 1)
    (hbelow : ∀ i, (hi : i < frames.length) → i < low → frames[i] < f)
    (habove : ∀ i, (hi : i < frames.length) → high < (i : Int) → f < frames[i]) :
    gaiiPost frames low high = (frames.countP (fun q => decide (q ≤ f)) : Int) := by
  have hcount : frames.countP (fun q => decide (q ≤ f)) = low := by
    apply countP_eq_of_split frames f low (by omega)
    · intro i hi hik; exact le_of_lt (hbelow i hi hik)
    · intro i hi hik; exact habove i hi (by omega)
  rw [hcount]
  unfold gaiiPost
  split
  · next h0 => omega
  · next h0 =>
      split
      · next h1 => omega
      · next h1 =>
          split
          · next h2 => omega
          · next h2 => omega

theorem gaiiMid_bounds (low : Nat) (high : Int) (h : (low : Int) ≤ high) :
    low ≤ gaiiMid low high ∧ ((gaiiMid low high : Nat) : Int) ≤ high := by
  have h0 : 0 ≤ high := le_trans (by omega) h
  have hH : ((high.toNat : Nat) : Int) = high := Int.toNat_of_nonneg h0
  unfold gaiiMid
  omega

theorem gaiiLoop_spec (frames : List Int) (f : Int) (hpw : frames.Pairwise (· ≤ ·)) :
    ∀ fuel (low : Nat) (high : Int),
    (high + 1 - (low : Int)).toNat < fuel →
    (low : Int) ≤ high + 1 →
    high ≤ (frames.length : Int) - 1 →
    (∀ i, (hi : i < frames.length) → i < low → frames[i] < f) →
    (∀ i, (hi : i < frames.length) → high < (i : Int) → f < frames[i]) →
    gaiiLoop frames f fuel low high = (frames.countP (fun q => decide (q ≤ f)) : Int) := by
  intro fuel
  induction fuel with
  | zero =>
      intro low high hfuel hl hh hbelow habove
      exact absurd hfuel (Nat.not_lt_zero _)
  | succ fuel ih =>
      intro low high hfuel hl hh hbelow habove
      rw [gaiiLoop]
      split
      · next hle =>
          obtain ⟨hmge, hmle⟩ := gaiiMid_bounds low high hle
          have hmlen : gaiiMid low high < frames.length := by omega
          rw [List.getD_eq_getElem frames 0 hmlen]
          split
          · next hlt =>
              apply ih (gaiiMid low high + 1) high (by omega) (by omega) hh
              · intro i hi hik
                rcases Nat.lt_or_ge i low with hil | hil
                · exact hbelow i hi hil
                · calc frames[i] ≤ frames[gaiiMid low high] :=
                        sorted_getElem_le hpw i (gaiiMid low high) hi hmlen (by omega)
                  _ < f := hlt
              · exact habove
          · next hge =>
              split
              · next hgt =>
                  apply ih low ((gaiiMid low high : Int) - 1) (by omega) (by omega) (by omega)
                  · exact hbelow
                  · intro i hi hik
                    calc f < frames[gaiiMid low high] := hgt
                    _ ≤ frames[i] := sorted_getElem_le hpw (gaiiMid low high) i hmlen hi (by omega)
              · next hngt =>
                  have heq : frames[gaiiMid low high] = f := by omega
                  have := walkEnd_spec frames f hpw frames.length (gaiiMid low high) hmlen heq (by omega)
                  rw [this]
                  push_cast
                  ring
      · next hnle =>
          exact gaiiPost_spec frames f low high (by omega) hh hbelow habove

theorem getActionInsertIndex_sorted (frames : List Int) (f : Int)
    (hpw : frames.Pairwise (· ≤ ·)) :
    getActionInsertIndex frames f = (frames.countP (fun q => decide (q ≤ f)) : Int) := by
  unfold getActionInsertIndex
  apply gaiiLoop_spec frames f hpw
  · omega
  · omega
  · omega
  · intro i hi hik; omega
  · intro i hi hik; omega


/-! ## Bounds for the insertion index, and queue-building lemmas -/

theorem gaiiPost_le (frames : List Int) (low : Nat) (high : Int)
    (hh : high ≤ (frames.length : Int) - 1) :
    gaiiPost frames low high ≤ (frames.length : Int) := by
  unfold gaiiPost
  split
  · next h0 => omega
  · next h0 =>
      split
      · next h1 => omega
      · next h1 =>
          split
          · next h2 => omega
          · next h2 => omega

theorem gaiiLoop_le (frames : List Int) (f : Int) :
    ∀ fuel (low : Nat) (high : Int), (low : Int) ≤ (frames.length : Int) →
      high ≤ (frames.length : Int) - 1 →
      gaiiLoop frames f fuel low high ≤ (frames.length : Int) := by
  intro fuel
  induction fuel with
  | zero => intro low high hl hh; exact gaiiPost_le frames low high hh
  | succ fuel ih =>
      intro low high hl hh
      rw [gaiiLoop]
      split
      · next hle =>
          obtain ⟨hmge, hmle⟩ := gaiiMid_bounds low high hle
          split
          · next => exact ih (gaiiMid low high + 1) high (by omega) hh
          · next =>
              split
              · next => exact ih low ((gaiiMid low high : Int) - 1) hl (by omega)
              · next =>
                  have hmlen : gaiiMid low high < frames.length := by omega
                  have := walkEnd_lt_length frames f frames.length (gaiiMid low high) hmlen
                  omega
      · next hnle => exact gaiiPost_le frames low high hh

theorem getActionInsertIndex_le (frames : List Int) (f : Int) :
    getActionInsertIndex frames f ≤ (frames.length : Int) := by
  unfold getActionInsertIndex
  exact gaiiLoop_le frames f _ 0 _ (by omega) (by omega)

theorem getActionInsertIndex_toNat_le (frames : List Int) (f : Int) :
    (getActionInsertIndex frames f).toNat ≤ frames.length := by
  rw [Int.toNat_le]
  exact getActionInsertIndex_le frames f

theorem getActionInsertIndex_all_le (frames : List Int) (f : Int)
    (hpw : frames.Pairwise (· ≤ ·)) (hall : ∀ q ∈ frames, q ≤ f) :
    getActionInsertIndex frames f = (frames.length : Int) := by
  rw [getActionInsertIndex_sorted frames f hpw]
  have hc : frames.countP (fun q => decide (q ≤ f)) = frames.length :=
    List.countP_eq_length.mpr (fun q hq => by simpa using hall q hq)
  rw [hc]

theorem testSchedule_append (s : ScheduleState) (aid : Nat) (d : Int)
    (hpw : (s.actions.map (·.executionFrame)).Pairwise (· ≤ ·))
    (hall : ∀ q ∈ s.actions.map (·.executionFrame), q ≤ s.currentFrame + d) :
    testSchedule s none aid d
      = { s with actions := s.actions ++ [⟨aid, s.currentFrame + d, true⟩] } := by
  have hidx : getActionInsertIndex (s.actions.map (·.executionFrame)) (s.currentFrame + d)
      = (s.actions.length : Int) := by
    rw [getActionInsertIndex_all_le _ _ hpw hall, List.length_map]
  unfold testSchedule
  rw [if_neg (by simp)]
  simp only [hidx, Int.toNat_natCast]
  rw [List.insertIdx_length_self]

theorem scheduleAll_empty (cf : Int) (isF : Bool) (calls : List (Nat × Int))
    (hsorted : calls.Pairwise (fun a b => a.2 ≤ b.2)) :
    scheduleAll ⟨[], cf, isF⟩ calls
      = ⟨calls.map (fun c => ⟨c.1, cf + c.2, true⟩), cf, isF⟩ := by
  induction calls using List.reverseRecOn with
  | nil => rfl
  | append_singleton init c ih =>
      rw [List.pairwise_append] at hsorted
      obtain ⟨hinit, _, hrel⟩ := hsorted
      have hstep : scheduleAll ⟨[], cf, isF⟩ (init ++ [c])
          = testSchedule (scheduleAll ⟨[], cf, isF⟩ init) none c.1 c.2 := by
        unfold scheduleAll
        rw [List.foldl_concat]
      rw [hstep, ih hinit]
      have hpw : ((init.map (fun c => (⟨c.1, cf + c.2, true⟩ : SAction))).map
          (·.executionFrame)).Pairwise (· ≤ ·) := by
        rw [List.map_map]
        exact hinit.map _ (fun a b hab => by simpa using by omega)
      have hall : ∀ q ∈ (init.map (fun c => (⟨c.1, cf + c.2, true⟩ : SAction))).map
          (·.executionFrame), q ≤ cf + c.2 := by
        intro q hq
        rw [List.map_map, List.mem_map] at hq
        obtain ⟨a, ha, rfl⟩ := hq
        have := hrel a ha c (by simp)
        simpa using by omega
      rw [testSchedule_append _ c.1 c.2 hpw hall]
      simp [List.map_append]



/-! ## Flush-log lemmas -/

theorem flushLoop_no_throw (env : Nat → Behavior)
    (henv : ∀ i, env i ≠ Behavior.throwErr) :
    ∀ (l : List SAction) (cf : Int) (log : List Nat),
      flushLoop env l cf log = (⟨[], finalFrame cf l, false⟩, log ++ pureLog l, none) := by
  intro l
  induction l with
  | nil => intro cf log; simp [flushLoop, pureLog, finalFrame]
  | cons a rest ih =>
      intro cf log
      rw [flushLoop]
      by_cases hsc : a.shouldCall
      · rw [if_pos hsc]
        have hnt := henv a.aid
        rcases henv2 : env a.aid with _ | _ | _
        · rw [ih a.executionFrame (log ++ [a.aid])]
          simp [pureLog, finalFrame, hsc]
        · exact absurd henv2 hnt
        · rw [ih a.executionFrame (log ++ [a.aid])]
          simp [pureLog, finalFrame, hsc]
      · rw [if_neg hsc]
        rw [ih a.executionFrame log]
        simp [pureLog, finalFrame, hsc]

theorem flush_log_no_throw (env : Nat → Behavior)
    (henv : ∀ i, env i ≠ Behavior.throwErr) (s : ScheduleState) :
    (flush env s).2.1 = if s.isFlushing then [] else pureLog s.actions := by
  unfold flush
  by_cases h : s.isFlushing
  · rw [if_pos h, if_pos h]
  · rw [if_neg h, if_neg h, flushLoop_no_throw env henv]
    simp

theorem envRet_no_throw : ∀ i, envRet i ≠ Behavior.throwErr := by
  intro i
  simp [envRet]

theorem pureLog_cancel (l : List SAction) (i : Nat) :
    pureLog (l.map fun a => if a.aid = i then { a with shouldCall := false } else a)
      = (pureLog l).filter (fun j => j ≠ i) := by
  induction l with
  | nil => simp [pureLog]
  | cons a rest ih =>
      by_cases hai : a.aid = i
      · by_cases hsc : a.shouldCall
        · simp only [pureLog, List.map_cons, List.filter_cons] at *
          simp [hai, hsc, ih]
        · simp only [pureLog, List.map_cons, List.filter_cons] at *
          simp [hai, hsc, ih]
      · by_cases hsc : a.shouldCall
        · simp only [pureLog, List.map_cons, List.filter_cons] at *
          simp [hai, hsc, ih]
        · simp only [pureLog, List.map_cons, List.filter_cons] at *
          simp [hai, hsc, ih]

theorem flushLoop_throw (env : Nat → Behavior) (a : SAction) (post : List SAction)
    (ha : a.shouldCall = true) (henv : env a.aid = Behavior.throwErr) :
    ∀ (pre : List SAction), (∀ b ∈ pre, env b.aid ≠ Behavior.throwErr) →
    ∀ (cf : Int) (log : List Nat),
      flushLoop env (pre ++ a :: post) cf log
        = (⟨[], 0, false⟩, log ++ pureLog pre ++ [a.aid], some a.aid) := by
  intro pre
  induction pre with
  | nil =>
      intro hpre cf log
      rw [List.nil_append, flushLoop, if_pos ha, henv]
      simp [pureLog]
  | cons b rest ih =>
      intro hpre cf log
      rw [List.cons_append, flushLoop]
      by_cases hsc : b.shouldCall
      · rw [if_pos hsc]
        have hnt := hpre b (by simp)
        rcases henv2 : env b.aid with _ | _ | _
        · rw [ih (fun x hx => hpre x (by simp [hx])) b.executionFrame (log ++ [b.aid])]
          simp [pureLog, hsc]
        · exact absurd henv2 hnt
        · rw [ih (fun x hx => hpre x (by simp [hx])) b.executionFrame (log ++ [b.aid])]
          simp [pureLog, hsc]
      · rw [if_neg hsc]
        rw [ih (fun x hx => hpre x (by simp [hx])) b.executionFrame log]
        simp [pureLog, hsc]



/-! ## Claims settled on the schedule-only model -/

theorem gaii_nil (f : Int) : getActionInsertIndex [] f = 0 := rfl

/-- Claim C2: on a queue sorted by `executionFrame`, the binary-search insertion
index equals the number of queued actions with `executionFrame ≤ frame`;
in particular it is `0` when `frame` is below every queued frame and the
queue length when `frame` is at or above every queued frame. -/
theorem insert_index_counts_le (frames : List Int) (f : Int)
    (hpw : frames.Pairwise (· ≤ ·)) :
    getActionInsertIndex frames f = (frames.countP (fun q => decide (q ≤ f)) : Int)
    ∧ ((∀ q ∈ frames, f < q) → getActionInsertIndex frames f = 0)
    ∧ ((∀ q ∈ frames, q ≤ f) → getActionInsertIndex frames f = (frames.length : Int)) := by
  refine ⟨getActionInsertIndex_sorted frames f hpw, ?_, ?_⟩
  · intro hall
    rw [getActionInsertIndex_sorted frames f hpw]
    have hz : frames.countP (fun q => decide (q ≤ f)) = 0 := by
      rw [List.countP_eq_zero]
      intro q hq
      have := hall q hq
      simp
      omega
    rw [hz]
    rfl
  · intro hall
    exact getActionInsertIndex_all_le frames f hpw hall

theorem insert_index_counts_le_witness :
    (([1, 3, 3, 7] : List Int).Pairwise (· ≤ ·))
    ∧ getActionInsertIndex [1, 3, 3, 7] 3
        = (([1, 3, 3, 7] : List Int).countP (fun q => decide (q ≤ 3)) : Int) := by
  refine ⟨by decide, ?_⟩
  exact (insert_index_counts_le [1, 3, 3, 7] 3 (by decide)).1

/-- Claim C1: scheduling calls issued in non-decreasing execution-frame order on a
schedule with an empty queue, none of them cancelled, are invoked by
`flush()` exactly in issue order. -/
theorem flush_invokes_in_issue_order (cf : Int) (calls : List (Nat × Int))
    (hframes : calls.Pairwise (fun a b => cf + a.2 ≤ cf + b.2)) :
    (flush envRet (scheduleAll ⟨[], cf, false⟩ calls)).2.1 = calls.map Prod.fst := by
  have hs : calls.Pairwise (fun a b => a.2 ≤ b.2) := hframes.imp (fun h => by omega)
  rw [scheduleAll_empty cf false calls hs]
  rw [flush_log_no_throw envRet envRet_no_throw]
  simp only [pureLog, List.filter_map, Bool.false_eq_true, if_false]
  have hfil : List.filter ((fun a => a.shouldCall) ∘ fun c : Nat × Int =>
      (⟨c.1, cf + c.2, true⟩ : SAction)) calls = calls :=
    List.filter_eq_self.mpr (fun a ha => rfl)
  rw [hfil, List.map_map]
  exact List.map_congr_left (fun a ha => rfl)

theorem flush_invokes_in_issue_order_witness :
    (([(1, 2), (2, 2), (3, 5)] : List (Nat × Int)).Pairwise
        (fun a b => (0 : Int) + a.2 ≤ 0 + b.2))
    ∧ (flush envRet (scheduleAll ⟨[], 0, false⟩ [(1, 2), (2, 2), (3, 5)])).2.1
        = [1, 2, 3] := by
  refine ⟨by decide, ?_⟩
  have h := flush_invokes_in_issue_order 0 [(1, 2), (2, 2), (3, 5)] (by decide)
  simpa using h

/-- Claim C3: cancelling the subscription of the actions labelled `i` keeps every
queued action in place (same labels and frames in the same order), the
cancelled callback is never invoked by `flush()`, and the remaining
callbacks run in the same relative order as without the cancellation. -/
theorem cancel_skips_without_disturbing (s : ScheduleState) (i : Nat) :
    (cancel s i).actions.map (fun a => (a.aid, a.executionFrame))
        = s.actions.map (fun a => (a.aid, a.executionFrame))
    ∧ i ∉ (flush envRet (cancel s i)).2.1
    ∧ (flush envRet (cancel s i)).2.1
        = (flush envRet s).2.1.filter (fun j => j ≠ i) := by
  have hlog : (flush envRet (cancel s i)).2.1
      = (flush envRet s).2.1.filter (fun j => j ≠ i) := by
    rw [flush_log_no_throw envRet envRet_no_throw, flush_log_no_throw envRet envRet_no_throw]
    by_cases h : s.isFlushing
    · simp [cancel, h]
    · simp only [cancel, h, if_false, Bool.false_eq_true]
      exact pureLog_cancel s.actions i
  refine ⟨?_, ?_, hlog⟩
  · unfold cancel
    simp only [List.map_map]
    apply List.map_congr_left
    intro a ha
    by_cases hai : a.aid = i <;> simp [hai, Function.comp]
  · rw [hlog]
    simp

/-- Claim C4: if the first still-callable action whose callback throws is reached
by `flush()`, no action queued after it is invoked, the schedule is reset
(queue emptied, `currentFrame` zeroed) and the exception propagates to the
`flush()` caller. -/
theorem throwing_callback_resets_and_propagates (env : Nat → Behavior)
    (s : ScheduleState) (pre post : List SAction) (a : SAction)
    (hq : s.actions = pre ++ a :: post) (hf : s.isFlushing = false)
    (ha : a.shouldCall = true) (henv : env a.aid = Behavior.throwErr)
    (hpre : ∀ b ∈ pre, env b.aid ≠ Behavior.throwErr) :
    flush env s = (⟨[], 0, false⟩, pureLog pre ++ [a.aid], some a.aid) := by
  unfold flush
  rw [if_neg (by simp [hf]), hq, flushLoop_throw env a post ha henv pre hpre]
  simp

theorem throwing_callback_resets_and_propagates_witness :
    ((⟨[⟨1, 0, true⟩, ⟨2, 1, true⟩, ⟨3, 2, true⟩], 0, false⟩ : ScheduleState).actions
        = [⟨1, 0, true⟩] ++ (⟨2, 1, true⟩ : SAction) :: [⟨3, 2, true⟩])
    ∧ flush (fun n => if n = 2 then Behavior.throwErr else Behavior.ret)
        ⟨[⟨1, 0, true⟩, ⟨2, 1, true⟩, ⟨3, 2, true⟩], 0, false⟩
        = (⟨[], 0, false⟩, pureLog [⟨1, 0, true⟩] ++ [2], some 2) := by
  refine ⟨by decide, ?_⟩
  exact throwing_callback_resets_and_propagates
    (fun n => if n = 2 then Behavior.throwErr else Behavior.ret)
    ⟨[⟨1, 0, true⟩, ⟨2, 1, true⟩, ⟨3, 2, true⟩], 0, false⟩
    [⟨1, 0, true⟩] [⟨3, 2, true⟩] ⟨2, 1, true⟩
    (by decide) (by decide) (by decide) (by decide) (by decide)

/-- Claim C5: a `flush()` call made while `isFlushing` is set (that is, while a
flush of the same schedule is in progress) executes nothing and leaves the
state unchanged. -/
theorem nested_flush_noop (env : Nat → Behavior) (s : ScheduleState)
    (h : s.isFlushing = true) : flush env s = (s, [], none) := by
  unfold flush
  rw [if_pos h]

theorem nested_flush_noop_witness :
    ((⟨[⟨1, 3, true⟩], 7, true⟩ : ScheduleState).isFlushing = true)
    ∧ flush envRet ⟨[⟨1, 3, true⟩], 7, true⟩
        = (⟨[⟨1, 3, true⟩], 7, true⟩, [], none) := by
  exact ⟨by decide, nested_flush_noop envRet ⟨[⟨1, 3, true⟩], 7, true⟩ (by decide)⟩

/-- Claim C6: scheduling `(cb1, 5)`, `(cb2, 2)`, `(cb3, 2)` on a fresh schedule
and flushing invokes the callbacks in the order `cb2, cb3, cb1` and leaves
`currentFrame = 5`. -/
theorem scenario_a_order_and_frame :
    (flush envRet (scheduleAll ⟨[], 0, false⟩ [(1, 5), (2, 2), (3, 2)])).2.1 = [2, 3, 1]
    ∧ (flush envRet (scheduleAll ⟨[], 0, false⟩ [(1, 5), (2, 2), (3, 2)])).1.currentFrame
        = 5 := by
  decide

/-- Claim C10: a negative delay is accepted without validation: under an active
subscription it inserts an action at `currentFrame + delayFrames`, which is
smaller than `currentFrame`, and flushing executes it and moves
`currentFrame` backwards to that value. -/
theorem negative_delay_moves_frame_backwards (cf : Int) (aid : Nat) (d : Int)
    (hd : d < 0) :
    (testSchedule ⟨[], cf, false⟩ (some true) aid d).actions = [⟨aid, cf + d, true⟩]
    ∧ cf + d < cf
    ∧ (flush envRet (testSchedule ⟨[], cf, false⟩ (some true) aid d)).1.currentFrame
        = cf + d := by
  have hstate : testSchedule ⟨[], cf, false⟩ (some true) aid d
      = ⟨[⟨aid, cf + d, true⟩], cf, false⟩ := by
    unfold testSchedule
    rw [if_neg (by simp)]
    simp [gaii_nil]
  rw [hstate]
  refine ⟨rfl, by omega, ?_⟩
  simp [flush, flushLoop, envRet]

theorem negative_delay_moves_frame_backwards_witness :
    ((-3 : Int) < 0)
    ∧ ((testSchedule ⟨[], 5, false⟩ (some true) 1 (-3)).actions
        = [⟨1, 5 + (-3), true⟩]
      ∧ (5 : Int) + (-3) < 5
      ∧ (flush envRet (testSchedule ⟨[], 5, false⟩ (some true) 1 (-3))).1.currentFrame
          = 5 + (-3)) := by
  exact ⟨by decide, negative_delay_moves_frame_backwards 5 1 (-3) (by decide)⟩

/-! ## World-model lemmas -/

theorem getD_set_self {α : Type _} (l : List α) (i : Nat) (a d : α) (h : i < l.length) :
    (l.set i a).getD i d = a := by
  rw [List.getD_eq_getElem _ _ (by simpa using h)]
  simp

theorem getD_set_ne {α : Type _} (l : List α) (i j : Nat) (a d : α) (h : i ≠ j) :
    (l.set i a).getD j d = l.getD j d := by
  by_cases hj : j < l.length
  · rw [List.getD_eq_getElem _ _ (by simpa using hj), List.getD_eq_getElem _ _ hj]
    simp [List.getElem_set_ne h]
  · rw [List.getD_eq_default _ _ (by simpa using not_lt.mp hj),
      List.getD_eq_default _ _ (not_lt.mp hj)]

theorem active_lt_length (w : World) (d : Nat)
    (h : ((w.disps.getD d dfltDisp)).active = true) : d < w.disps.length := by
  by_contra hge
  rw [List.getD_eq_default _ _ (not_lt.mp hge)] at h
  simp [dfltDisp] at h

theorem dispAdd_of_active (w : World) (d : Nat) (t : Teardown)
    (hact : ((w.disps.getD d dfltDisp)).active = true) :
    dispAdd w d t = { w with
      disps := w.disps.set d
        (DispObj.mk true ((w.disps.getD d dfltDisp).teardowns ++ [t])) } := by
  unfold dispAdd
  rw [if_pos hact]

theorem dispAdd_proj (w : World) (d : Nat) (t : Teardown) :
    (dispAdd w d t).currentFrame = w.currentFrame
    ∧ (dispAdd w d t).sources = w.sources
    ∧ (dispAdd w d t).sinks = w.sinks
    ∧ (dispAdd w d t).nextAid = w.nextAid
    ∧ (dispAdd w d t).records = w.records := by
  unfold dispAdd
  split
  · exact ⟨rfl, rfl, rfl, rfl, rfl⟩
  · cases t <;> exact ⟨rfl, rfl, rfl, rfl, rfl⟩

theorem dispAdd_actions_other (w : World) (d : Nat) (t : Teardown)
    (h : ∀ a, t ≠ Teardown.setShouldCall a) :
    (dispAdd w d t).actions = w.actions := by
  unfold dispAdd
  split
  · rfl
  · cases t with
    | setShouldCall a => exact absurd rfl (h a)
    | setEndFrame i => rfl
    | removeSink sj sk => rfl

theorem dispAdd_active_proj (w : World) (d : Nat) (t : Teardown)
    (hact : ((w.disps.getD d dfltDisp)).active = true) :
    (dispAdd w d t).actions = w.actions
    ∧ (dispAdd w d t).infos = w.infos
    ∧ (dispAdd w d t).subjects = w.subjects := by
  unfold dispAdd
  rw [if_pos hact]
  exact ⟨rfl, rfl, rfl⟩

theorem dispAdd_disps_active (w : World) (d : Nat) (t : Teardown) (e : Nat) :
    ((dispAdd w d t).disps.getD e dfltDisp).active
      = ((w.disps.getD e dfltDisp)).active := by
  unfold dispAdd
  split
  · next hact =>
      by_cases hde : d = e
      · subst hde
        rw [getD_set_self _ _ _ _ (active_lt_length w d hact)]
        exact hact.symm
      · rw [getD_set_ne _ _ _ _ _ hde]
  · next hact => cases t <;> rfl

theorem dispAdd_actions_length (w : World) (d : Nat) (t : Teardown) :
    (dispAdd w d t).actions.length = w.actions.length := by
  unfold dispAdd
  split
  · rfl
  · cases t with
    | setShouldCall a => simp [runTeardown]
    | setEndFrame i => rfl
    | removeSink sj sk => rfl

theorem wEnqueue_length (w : World) (cb : SchedCb) (d : Int) :
    (wEnqueue w cb d).actions.length = w.actions.length + 1 := by
  simp only [wEnqueue]
  have h := getActionInsertIndex_toNat_le (w.actions.map (·.executionFrame))
    (w.currentFrame + d)
  rw [List.length_insertIdx _ _ (by simpa using h)]

theorem wEnqueue_mem_new (w : World) (cb : SchedCb) (d : Int) :
    (⟨w.nextAid, cb, w.currentFrame + d, true⟩ : WAction) ∈ (wEnqueue w cb d).actions := by
  simp only [wEnqueue]
  have h := getActionInsertIndex_toNat_le (w.actions.map (·.executionFrame))
    (w.currentFrame + d)
  rw [List.mem_insertIdx (by simpa using h)]
  exact Or.inl rfl

theorem wEnqueue_mem_mono (w : World) (cb : SchedCb) (d : Int) (a : WAction)
    (ha : a ∈ w.actions) : a ∈ (wEnqueue w cb d).actions := by
  simp only [wEnqueue]
  have h := getActionInsertIndex_toNat_le (w.actions.map (·.executionFrame))
    (w.currentFrame + d)
  rw [List.mem_insertIdx (by simpa using h)]
  exact Or.inr ha

theorem wTestSchedule_length (w : World) (cb : SchedCb) (d : Int) (sub : Option Nat)
    (hsub : sub = none ∨ ∃ dd, sub = some dd
      ∧ ((w.disps.getD dd dfltDisp)).active = true) :
    (wTestSchedule w cb d sub).actions.length = w.actions.length + 1 := by
  unfold wTestSchedule
  rcases hsub with rfl | ⟨dd, rfl, hact⟩
  · exact wEnqueue_length w cb d
  · dsimp only
    rw [if_neg (by rw [hact]; simp)]
    rw [dispAdd_actions_length]
    exact wEnqueue_length w cb d

theorem wTestSchedule_disps_active (w : World) (cb : SchedCb) (d : Int)
    (sub : Option Nat) (e : Nat) :
    ((wTestSchedule w cb d sub).disps.getD e dfltDisp).active
      = ((w.disps.getD e dfltDisp)).active := by
  unfold wTestSchedule
  cases sub with
  | none => rfl
  | some dd =>
      dsimp only
      split
      · rfl
      · rw [dispAdd_disps_active]
        rfl

theorem foldl_wTestSchedule_length (mk : Ev → SchedCb) (sub : Option Nat) :
    ∀ (events : List (Ev × Int)) (w : World),
    (sub = none ∨ ∃ dd, sub = some dd
      ∧ ((w.disps.getD dd dfltDisp)).active = true) →
    ((events.foldl (fun w2 e => wTestSchedule w2 (mk e.1) e.2 sub) w).actions.length
      = w.actions.length + events.length) := by
  intro events
  induction events with
  | nil => intro w hsub; simp
  | cons e rest ih =>
      intro w hsub
      simp only [List.foldl_cons]
      have hsub2 : sub = none ∨ ∃ dd, sub = some dd
          ∧ (((wTestSchedule w (mk e.1) e.2 sub).disps.getD dd dfltDisp)).active
            = true := by
        rcases hsub with rfl | ⟨dd, rfl, hact⟩
        · exact Or.inl rfl
        · exact Or.inr ⟨dd, rfl, by rw [wTestSchedule_disps_active]; exact hact⟩
      rw [ih (wTestSchedule w (mk e.1) e.2 sub) hsub2,
        wTestSchedule_length w (mk e.1) e.2 sub hsub]
      simp only [List.length_cons]
      omega

theorem sharedSchedule_length (w : World) (srcId : Nat) (sub : Option Nat)
    (events : List (Ev × Int)) (subjectId : Nat)
    (hsrc : (w.sources.getD srcId dfltSource).1 = SourceObj.shared events subjectId)
    (hsub : sub = none ∨ ∃ dd, sub = some dd
      ∧ ((w.disps.getD dd dfltDisp)).active = true) :
    (sharedSchedule w srcId sub).actions.length
      = w.actions.length + events.length := by
  unfold sharedSchedule
  rw [hsrc]
  exact foldl_wTestSchedule_length _ sub events w hsub

theorem sinkInvoke_records (w2 : World) (sinkId recId : Nat) (ev : Ev)
    (hkind : (w2.sinks.getD sinkId dfltSink).kind = SinkKind.record recId)
    (hact : ((w2.disps.getD (w2.sinks.getD sinkId dfltSink).dispId dfltDisp)).active
      = true)
    (hrec : recId < w2.records.length) :
    (sinkInvoke w2 sinkId ev).records.getD recId []
      = (w2.records.getD recId []) ++ [(ev, w2.currentFrame)] := by
  unfold sinkInvoke
  rw [if_pos hact, hkind]
  simp only [sinkConsume]
  rw [getD_set_self _ _ _ _ (by simpa using hrec)]


theorem wTestSchedule_none_eq (w : World) (cb : SchedCb) (d : Int) :
    wTestSchedule w cb d none = wEnqueue w cb d := rfl


/-! ## Claims settled on the world model -/

/-- Claim C9: subscribing a sink to a `SharedTestSource` enqueues no action
and leaves `currentFrame` unchanged — it only registers the sink with the
internal subject and appends one subscription-info record; only the
`schedule(subscription?)` method enqueues the timeline, and it enqueues
exactly one action per declared event, for any world state (hence
independently of how many consumers are subscribed). -/
theorem shared_subscribe_only_registers (w : World) (srcId sinkId subjectId dId : Nat)
    (events : List (Ev × Int)) (subs : List Nat)
    (hsrc : w.sources.getD srcId dfltSource = (SourceObj.shared events subjectId, subs))
    (hsrcLt : srcId < w.sources.length)
    (hsubjLt : subjectId < w.subjects.length)
    (hdId : (w.sinks.getD sinkId dfltSink).dispId = dId)
    (hact : ((w.disps.getD dId dfltDisp)).active = true) :
    (sourceSubscribe w srcId sinkId).actions = w.actions
    ∧ (sourceSubscribe w srcId sinkId).currentFrame = w.currentFrame
    ∧ (sourceSubscribe w srcId sinkId).subjects.getD subjectId []
        = w.subjects.getD subjectId [] ++ [sinkId]
    ∧ (sourceSubscribe w srcId sinkId).infos = w.infos ++ [⟨w.currentFrame, none⟩]
    ∧ (sourceSubscribe w srcId sinkId).sources.getD srcId dfltSource
        = (SourceObj.shared events subjectId, subs ++ [w.infos.length])
    ∧ ∀ sub, (sub = none ∨ ∃ dd, sub = some dd
        ∧ (((sourceSubscribe w srcId sinkId).disps.getD dd dfltDisp)).active = true) →
      (sharedSchedule (sourceSubscribe w srcId sinkId) srcId sub).actions.length
        = (sourceSubscribe w srcId sinkId).actions.length + events.length := by
  have hBact : ((dispAdd { w with infos := w.infos ++ [⟨w.currentFrame, none⟩] } dId
      (Teardown.setEndFrame w.infos.length)).disps.getD dId dfltDisp).active = true := by
    rw [dispAdd_disps_active]
    exact hact
  have hsources : (sourceSubscribe w srcId sinkId).sources.getD srcId dfltSource
      = (SourceObj.shared events subjectId, subs ++ [w.infos.length]) := by
    unfold sourceSubscribe watchSubscriptionInfo subjectSubscribe
    simp only [hsrc, hdId]
    rw [(dispAdd_proj { w with infos := w.infos ++ [⟨w.currentFrame, none⟩] } dId
      (Teardown.setEndFrame w.infos.length)).2.2.1]
    try dsimp only
    rw [hdId]
    rw [(dispAdd_proj _ dId (Teardown.removeSink subjectId sinkId)).2.1]
    try dsimp only
    rw [(dispAdd_proj { w with infos := w.infos ++ [⟨w.currentFrame, none⟩] } dId
      (Teardown.setEndFrame w.infos.length)).2.1]
    try dsimp only
    rw [getD_set_self _ _ _ _ (by simpa using hsrcLt)]
  refine ⟨?_, ?_, ?_, ?_, hsources, ?_⟩
  · unfold sourceSubscribe watchSubscriptionInfo subjectSubscribe
    simp only [hsrc, hdId]
    rw [(dispAdd_proj { w with infos := w.infos ++ [⟨w.currentFrame, none⟩] } dId
      (Teardown.setEndFrame w.infos.length)).2.2.1]
    try dsimp only
    rw [hdId]
    rw [dispAdd_actions_other _ _ _ (by intro a h; cases h)]
    try dsimp only
    rw [dispAdd_actions_other _ _ _ (by intro a h; cases h)]
  · unfold sourceSubscribe watchSubscriptionInfo subjectSubscribe
    simp only [hsrc, hdId]
    rw [(dispAdd_proj { w with infos := w.infos ++ [⟨w.currentFrame, none⟩] } dId
      (Teardown.setEndFrame w.infos.length)).2.2.1]
    try dsimp only
    rw [hdId]
    rw [(dispAdd_proj _ dId (Teardown.removeSink subjectId sinkId)).1]
    try dsimp only
    rw [(dispAdd_proj { w with infos := w.infos ++ [⟨w.currentFrame, none⟩] } dId
      (Teardown.setEndFrame w.infos.length)).1]
  · unfold sourceSubscribe watchSubscriptionInfo subjectSubscribe
    simp only [hsrc, hdId]
    rw [(dispAdd_proj { w with infos := w.infos ++ [⟨w.currentFrame, none⟩] } dId
      (Teardown.setEndFrame w.infos.length)).2.2.1]
    try dsimp only
    rw [hdId]
    rw [(dispAdd_active_proj _ dId (Teardown.removeSink subjectId sinkId)
      (by exact hBact)).2.2]
    try dsimp only
    rw [(dispAdd_active_proj _ dId (Teardown.setEndFrame w.infos.length)
      (by exact hact)).2.2]
    rw [getD_set_self _ _ _ _ (by simpa using hsubjLt)]
  · unfold sourceSubscribe watchSubscriptionInfo subjectSubscribe
    simp only [hsrc, hdId]
    rw [(dispAdd_proj { w with infos := w.infos ++ [⟨w.currentFrame, none⟩] } dId
      (Teardown.setEndFrame w.infos.length)).2.2.1]
    try dsimp only
    rw [hdId]
    rw [(dispAdd_active_proj _ dId (Teardown.removeSink subjectId sinkId)
      (by exact hBact)).2.1]
    try dsimp only
    rw [(dispAdd_active_proj _ dId (Teardown.setEndFrame w.infos.length)
      (by exact hact)).2.1]
  · intro sub hsub
    rw [sharedSchedule_length (sourceSubscribe w srcId sinkId) srcId sub events
      subjectId (by rw [hsources]) hsub]

/-- Claim C8 (amended): `watchSourceEvents` with an explicitly supplied
subscription window leaves `currentFrame` untouched and schedules exactly
two actions — the subscription start at frame
`currentFrame + subscriptionStartFrame` and the disposal at frame
`currentFrame + subscriptionEndFrame` (the supplied frames are delays
relative to the `currentFrame` at the moment of the call, not absolute
frames) — and every event delivered to the watcher's still-active sink is
recorded tagged with the schedule's `currentFrame` at delivery time. -/
theorem watch_source_events_delays (w : World) (srcId : Nat) (startF endF : Int) :
    (watchSourceEvents w srcId startF endF).1.currentFrame = w.currentFrame
    ∧ (watchSourceEvents w srcId startF endF).1.actions.length = w.actions.length + 2
    ∧ (∃ a, a ∈ (watchSourceEvents w srcId startF endF).1.actions
        ∧ a.cb = SchedCb.subscribeWatch srcId w.records.length w.disps.length
        ∧ a.executionFrame = w.currentFrame + startF ∧ a.shouldCall = true)
    ∧ (∃ a, a ∈ (watchSourceEvents w srcId startF endF).1.actions
        ∧ a.cb = SchedCb.disposeDisp w.disps.length
        ∧ a.executionFrame = w.currentFrame + endF ∧ a.shouldCall = true)
    ∧ ∀ (w2 : World) (sinkId recId : Nat) (ev : Ev),
        (w2.sinks.getD sinkId dfltSink).kind = SinkKind.record recId →
        ((w2.disps.getD (w2.sinks.getD sinkId dfltSink).dispId dfltDisp)).active
          = true →
        recId < w2.records.length →
        (sinkInvoke w2 sinkId ev).records.getD recId []
          = (w2.records.getD recId []) ++ [(ev, w2.currentFrame)] := by
  refine ⟨rfl, ?_, ?_, ?_, ?_⟩
  · unfold watchSourceEvents
    dsimp only
    rw [wTestSchedule_none_eq, wTestSchedule_none_eq, wEnqueue_length, wEnqueue_length]
  · refine ⟨⟨w.nextAid, SchedCb.subscribeWatch srcId w.records.length w.disps.length,
      w.currentFrame + startF, true⟩, ?_, rfl, rfl, rfl⟩
    unfold watchSourceEvents
    dsimp only
    rw [wTestSchedule_none_eq, wTestSchedule_none_eq]
    apply wEnqueue_mem_mono
    exact wEnqueue_mem_new
      { w with disps := w.disps ++ [⟨true, []⟩], records := w.records ++ [[]] }
      (SchedCb.subscribeWatch srcId w.records.length w.disps.length) startF
  · refine ⟨⟨w.nextAid + 1, SchedCb.disposeDisp w.disps.length,
      w.currentFrame + endF, true⟩, ?_, rfl, rfl, rfl⟩
    unfold watchSourceEvents
    dsimp only
    rw [wTestSchedule_none_eq, wTestSchedule_none_eq]
    exact wEnqueue_mem_new _ (SchedCb.disposeDisp w.disps.length) endF
  · exact fun w2 sinkId recId ev hk ha hr => sinkInvoke_records w2 sinkId recId ev hk ha hr



/-- Claim C7: a `TestSource` with events `[P(1,0), P(2,10), E(20)]` on a
fresh schedule, subscribed at frame 0 and watched until frame 25, records
after `flush()` exactly `Push 1` at frame 0, `Push 2` at frame 10 and `End`
at frame 20. -/
theorem test_source_scenario_b :
    c7World.records.getD c7Watch.2 []
      = [(Ev.push 1, 0), (Ev.push 2, 10), (Ev.endE, 20)]
    ∧ c7World.currentFrame = 25 := by
  decide

/-- Counterexample to claim C8 as stated: with `currentFrame = 5` at the
time of the `watchSourceEvents` call and a supplied window `[0, 25]`, the
source is subscribed at frame `5` (not `0`) and disposed at frame `30`
(not `25`), and the event declared at frame 0 is recorded tagged `5`. -/
theorem watch_absolute_frames_counterexample :
    c8Mid.currentFrame = 5
    ∧ c8World.infos.getD 1 dfltInfo = ⟨5, some 30⟩
    ∧ ¬ (c8World.infos.getD 1 dfltInfo).subscriptionStartFrame = 0
    ∧ ¬ (c8World.infos.getD 1 dfltInfo).subscriptionEndFrame = some 25
    ∧ c8World.records.getD c8Watch.2 [] = [(Ev.push 1, 5)] := by
  decide

theorem watch_source_events_delays_witness :
    (watchSourceEvents freshWorld 0 3 9).1.actions.length = freshWorld.actions.length + 2
    ∧ ((tagWitWorld.sinks.getD 0 dfltSink).kind = SinkKind.record 0
      ∧ ((tagWitWorld.disps.getD (tagWitWorld.sinks.getD 0 dfltSink).dispId
          dfltDisp)).active = true
      ∧ 0 < tagWitWorld.records.length
      ∧ (sinkInvoke tagWitWorld 0 (Ev.push 7)).records.getD 0 []
          = (tagWitWorld.records.getD 0 []) ++ [(Ev.push 7, 4)]) := by
  refine ⟨(watch_source_events_delays freshWorld 0 3 9).2.1, by decide, by decide,
    by decide, ?_⟩
  exact (watch_source_events_delays freshWorld 0 3 9).2.2.2.2 tagWitWorld 0 0
    (Ev.push 7) (by decide) (by decide) (by decide)

theorem shared_subscribe_only_registers_witness :
    (c9WitWorld.sources.getD 0 dfltSource
        = (SourceObj.shared [(Ev.push 1, 2), (Ev.endE, 4)] 0, []))
    ∧ (sourceSubscribe c9WitWorld 0 0).actions = c9WitWorld.actions
    ∧ (sourceSubscribe c9WitWorld 0 0).subjects.getD 0 []
        = c9WitWorld.subjects.getD 0 [] ++ [0]
    ∧ (sharedSchedule (sourceSubscribe c9WitWorld 0 0) 0 none).actions.length
        = (sourceSubscribe c9WitWorld 0 0).actions.length + 2 := by
  refine ⟨by decide, ?_, ?_, ?_⟩
  · exact (shared_subscribe_only_registers c9WitWorld 0 0 0 0
      [(Ev.push 1, 2), (Ev.endE, 4)] [] (by decide) (by decide) (by decide)
      (by decide) (by decide)).1
  · exact (shared_subscribe_only_registers c9WitWorld 0 0 0 0
      [(Ev.push 1, 2), (Ev.endE, 4)] [] (by decide) (by decide) (by decide)
      (by decide) (by decide)).2.2.1
  · exact (shared_subscribe_only_registers c9WitWorld 0 0 0 0
      [(Ev.push 1, 2), (Ev.endE, 4)] [] (by decide) (by decide) (by decide)
      (by decide) (by decide)).2.2.2.2.2 none (Or.inl rfl)

end Ruscello
